import Mathlib

/-!
# Verification of the xangi persistent process runner and its collaborators

This file gives a shallow embedding of the repository:

* the persistent process runner (Process Supervisor, Request Queue and
  Dispatcher, Stream Parser, Correlator), modelled from the design
  specification because only its test suite ships under `src/`;
* the session persistence module (`sessions.ts`, shipped as
  `src/unnamed/part_000`), translated directly from the source;
* the settings module (`src/src/settings.ts`), translated directly from
  the source.

Stateful TypeScript is embedded as explicit state passing: each operation
maps a state to a new state together with the list of observable effects
(stdin writes, future settlements, callback invocations) it performs.
-/

namespace Xangi

/-! ## JSON values and parsed events (Stream Parser data model) -/

/-- A JSON value, the decode result of one line of process output. -/
inductive Json where
  | null
  | bool (b : Bool)
  | num (n : Int)
  | str (s : String)
  | arr (elems : List Json)
  | obj (fields : List (String × Json))

/-- Look up a field of a JSON object field list (first match wins). -/
def findField : List (String × Json) → String → Option Json
  | [], _ => none
  | (k, v) :: rest, key => if k = key then some v else findField rest key

/-- Field access on a JSON value: `none` unless it is an object with the key. -/
def Json.getField : Json → String → Option Json
  | .obj fs, key => findField fs key
  | _, _ => none

/-- Extract a string payload. -/
def asString : Option Json → Option String
  | some (.str s) => some s
  | _ => none

/-- Extract a boolean payload. -/
def asBool : Option Json → Option Bool
  | some (.bool b) => some b
  | _ => none

/-- Modelled from the spec: the tagged event variants the Stream Parser
produces from one decoded line
(`persistent-runner.ts` is not shipped under `src/`). -/
inductive ParsedEvent where
  | init (sessionId : String)
  | textDelta (text : String)
  | result (text : String) (sessionId : String) (isError : Bool)
  | unrecognized
  deriving DecidableEq

/-- A content entry `{"type":"text","text":T}` contributes the delta `T`. -/
def textOfEntry (j : Json) : Option String :=
  match asString (j.getField "type") with
  | some ty => if ty = "text" then asString (j.getField "text") else none
  | none => none

/-- Modelled from the spec: classification of one decoded JSON line into
parsed events.  The three recognized shapes are the `system`/`init` line,
the `assistant` message line (one `textDelta` per text-typed content
entry) and the terminal `result` line; every other shape is
`unrecognized`. -/
def classifyJson (j : Json) : List ParsedEvent :=
  match asString (j.getField "type") with
  | some ty =>
    if ty = "system" then
      match asString (j.getField "subtype"), asString (j.getField "session_id") with
      | some sub, some s => if sub = "init" then [.init s] else [.unrecognized]
      | _, _ => [.unrecognized]
    else if ty = "assistant" then
      match j.getField "message" with
      | some m =>
        match m.getField "content" with
        | some (.arr entries) => (entries.filterMap textOfEntry).map ParsedEvent.textDelta
        | _ => [.unrecognized]
      | none => [.unrecognized]
    else if ty = "result" then
      match asString (j.getField "result"), asString (j.getField "session_id"),
            asBool (j.getField "is_error") with
      | some r, some s, some e => [.result r s e]
      | _, _, _ => [.unrecognized]
    else [.unrecognized]
  | none => [.unrecognized]

/-- Modelled from the spec: classification of one line after the JSON
decode boundary; a line that fails to decode (`none`) is `unrecognized`. -/
def classifyLine : Option Json → List ParsedEvent
  | none => [.unrecognized]
  | some j => classifyJson j

/-- Shape test: the `system`/`init` event shape. -/
def isInitShape (j : Json) : Bool :=
  decide (asString (j.getField "type") = some "system") &&
  decide (asString (j.getField "subtype") = some "init") &&
  (asString (j.getField "session_id")).isSome

/-- Shape test: the `assistant` message event shape. -/
def isAssistantShape (j : Json) : Bool :=
  decide (asString (j.getField "type") = some "assistant") &&
  (match j.getField "message" with
   | some m =>
     match m.getField "content" with
     | some (.arr _) => true
     | _ => false
   | none => false)

/-- Shape test: the terminal `result` event shape. -/
def isResultShape (j : Json) : Bool :=
  decide (asString (j.getField "type") = some "result") &&
  (asString (j.getField "result")).isSome &&
  (asString (j.getField "session_id")).isSome &&
  (asBool (j.getField "is_error")).isSome

/-! ## Line buffering

Modelled from the spec: the Stream Parser appends each raw chunk to an
internal buffer and extracts one line per embedded line terminator; a
trailing unterminated chunk stays in the buffer.  Chunks are modelled as
`List Char`. -/

/-- Split a character stream at newline characters; `acc` holds the
(reversed) characters of the line being accumulated.  Returns the
complete lines and the trailing unterminated remainder. -/
def splitLinesAux : List Char → List Char → List (List Char) × List Char
  | [], acc => ([], acc.reverse)
  | c :: cs, acc =>
    if c = '\n' then
      let rest := splitLinesAux cs []
      (acc.reverse :: rest.1, rest.2)
    else splitLinesAux cs (c :: acc)

/-- Feed one raw chunk into the parser buffer: returns the complete lines
now available and the new buffer contents. -/
def feedChunk (buf chunk : List Char) : List (List Char) × List Char :=
  splitLinesAux (buf ++ chunk) []

/-- Reassemble split lines with their terminators. -/
def joinLines (ls : List (List Char)) : List Char :=
  (ls.map (fun l => l ++ ['\n'])).flatten

/-! ## Runner state machine

Modelled from the spec: the persistent runner (`persistent-runner.ts` is
not shipped under `src/`; only its test suite is).  The runner owns a
FIFO queue of pending requests, at most one of which is dispatched to
the external process at a time, and a five-state lifecycle. -/

/-- Modelled from the spec: the runner lifecycle states. -/
inductive RunnerState where
  | idle
  | starting
  | busy
  | shuttingDown
  | dead
  deriving DecidableEq

/-- Modelled from the spec: the error taxonomy surfaced to callers. -/
inductive ErrKind where
  | startupError
  | runtimeError
  | shutdownError
  | processCrashed
  deriving DecidableEq

/-- Which optional streaming callbacks a caller supplied with `submit`. -/
structure Callbacks where
  hasOnText : Bool
  hasOnComplete : Bool
  hasOnError : Bool
  deriving DecidableEq

/-- `run()` style call: no streaming callbacks supplied. -/
def noCallbacks : Callbacks := ⟨false, false, false⟩

/-- Modelled from the spec: a pending request — unique id, prompt text,
callbacks, and the cumulative streamed text accumulated so far. -/
structure PendingRequest where
  id : Nat
  prompt : String
  cbs : Callbacks
  cumulative : String
  deriving DecidableEq

/-- Modelled from the spec: the runner state — lifecycle state, FIFO
queue of undispatched requests, the single in-flight request, the
tracked session id, process liveness, a generation counter naming the
current process instance, the id counter, and the `autoRestart`
setting. -/
structure Runner where
  state : RunnerState
  queue : List PendingRequest
  inFlight : Option PendingRequest
  sessionId : Option String
  procAlive : Bool
  gen : Nat
  nextId : Nat
  autoRestart : Bool
  deriving DecidableEq

/-- Observable effects of one runner step: process management, writes to
a process generation's input stream, future settlements, and callback
invocations. -/
inductive Effect where
  | spawn (gen : Nat)
  | write (gen : Nat) (reqId : Nat) (prompt : String) (resume : Option String)
  | terminate (gen : Nat)
  | closed (gen : Nat)
  | resolve (reqId : Nat) (result : String) (sessionId : String)
  | reject (reqId : Nat) (err : ErrKind) (msg : String)
  | onTextCall (reqId : Nat) (delta : String) (cumulative : String)
  | onCompleteCall (reqId : Nat)
  | onErrorCall (reqId : Nat)
  deriving DecidableEq

/-- A fresh runner: idle, empty queue, no process yet. -/
def initRunner (autoRestart : Bool) : Runner :=
  { state := .idle, queue := [], inFlight := none, sessionId := none,
    procAlive := false, gen := 0, nextId := 0, autoRestart := autoRestart }

/-- Modelled from the spec: `isAlive()` — true only between a successful
spawn and process termination. -/
def Runner.isAlive (r : Runner) : Bool := r.procAlive

/-- Modelled from the spec: `start()` — idempotent; if a live process
exists it is reused, otherwise a fresh process (next generation) is
spawned and the runner is ready to dispatch. -/
def start (r : Runner) : Runner × List Effect :=
  if r.procAlive then (r, [])
  else ({ r with procAlive := true, gen := r.gen + 1, state := .idle },
        [.spawn (r.gen + 1)])

/-- Modelled from the spec: `dispatch()` — when idle with a live process
and a non-empty queue, pop the oldest request, mark it in flight, write
its encoded prompt (with the resume-session hint) to the process input
stream and become busy; a no-op otherwise. -/
def dispatch (r : Runner) : Runner × List Effect :=
  if r.state = .idle ∧ r.procAlive then
    match r.queue with
    | [] => (r, [])
    | req :: rest =>
      ({ r with queue := rest, inFlight := some req, state := .busy },
       [.write r.gen req.id req.prompt r.sessionId])
  else (r, [])

/-- Modelled from the spec: `submit(prompt, callbacks)` — append a fresh
pending request to the FIFO; when idle, lazily `start()` then dispatch;
when dead with auto-restart enabled, respawn lazily and dispatch; while
busy (or starting or shutting down) the request merely waits. -/
def submit (r : Runner) (prompt : String) (cbs : Callbacks) : Runner × List Effect :=
  let req : PendingRequest := ⟨r.nextId, prompt, cbs, ""⟩
  let r1 : Runner := { r with queue := r.queue ++ [req], nextId := r.nextId + 1 }
  match r1.state with
  | .idle =>
    let s := start r1
    let d := dispatch s.1
    (d.1, s.2 ++ d.2)
  | .dead =>
    if r1.autoRestart then
      let s := start { r1 with state := .idle }
      let d := dispatch s.1
      (d.1, s.2 ++ d.2)
    else (r1, [])
  | _ => (r1, [])

/-- Modelled from the spec: the Correlator — route one parsed event.
`init` records the session id; `textDelta` extends the in-flight
request's cumulative text and invokes `onText`; `result` settles the
in-flight request (reject with `runtimeError` on `isError`, resolve
otherwise), returns to idle and dispatches the next queued request; a
late event with no request in flight is discarded; `unrecognized` is
discarded. -/
def handleEvent (r : Runner) : ParsedEvent → Runner × List Effect
  | .init s => ({ r with sessionId := some s }, [])
  | .textDelta t =>
    match r.inFlight with
    | none => (r, [])
    | some req =>
      let cum := req.cumulative ++ t
      ({ r with inFlight := some { req with cumulative := cum } },
       if req.cbs.hasOnText then [.onTextCall req.id t cum] else [])
  | .result res sid isErr =>
    match r.inFlight with
    | none => (r, [])
    | some req =>
      let settleEffs : List Effect :=
        if isErr then
          (if req.cbs.hasOnError then [.onErrorCall req.id] else []) ++
          [.reject req.id .runtimeError res]
        else
          (if req.cbs.hasOnComplete then [.onCompleteCall req.id] else []) ++
          [.resolve req.id res sid]
      let r1 : Runner :=
        { r with inFlight := none, sessionId := some sid,
                 state := if r.state = .shuttingDown then .shuttingDown else .idle }
      let d := dispatch r1
      (d.1, settleEffs ++ d.2)
  | .unrecognized => (r, [])

/-- Modelled from the spec: `shutdown()` — transition to shutting-down
and synchronously reject every queued-but-undispatched request with
`shutdownError`; with a live process, terminate it and leave the
in-flight request to be rejected at the close notification; with no
live process, reject the in-flight request immediately and go dead. -/
def shutdown (r : Runner) : Runner × List Effect :=
  let queueRejects : List Effect :=
    r.queue.map (fun q => .reject q.id .shutdownError "Runner is shutting down")
  if r.procAlive then
    ({ r with state := .shuttingDown, queue := [], procAlive := false },
     queueRejects ++ [.terminate r.gen])
  else
    let inflightRejects : List Effect :=
      match r.inFlight with
      | some req => [.reject req.id .shutdownError "Runner is shutting down"]
      | none => []
    ({ r with state := .dead, queue := [], inFlight := none },
     queueRejects ++ inflightRejects)

/-- Modelled from the spec: the process close notification.  During
shutdown the in-flight request (if any) is rejected with
`shutdownError`; a close while busy without a prior `shutdown()` is a
crash that rejects the in-flight request with `processCrashed`; in
every case the runner transitions to dead with no live process, and no
eager restart happens. -/
def handleClose (r : Runner) : Runner × List Effect :=
  let inflightRejects (k : ErrKind) (msg : String) : List Effect :=
    match r.inFlight with
    | some req => [.reject req.id k msg]
    | none => []
  let effs : List Effect :=
    match r.state with
    | .shuttingDown => inflightRejects .shutdownError "Runner is shutting down"
    | .busy => inflightRejects .processCrashed "Process crashed"
    | _ => []
  ({ r with state := .dead, inFlight := none, procAlive := false },
   effs ++ [.closed r.gen])

/-- The external stimuli a runner reacts to. -/
inductive Action where
  | submit (prompt : String) (cbs : Callbacks)
  | event (e : ParsedEvent)
  | close
  | shutdown
  deriving DecidableEq

/-- One runner step. -/
def step (r : Runner) : Action → Runner × List Effect
  | .submit p cbs => submit r p cbs
  | .event e => handleEvent r e
  | .close => handleClose r
  | .shutdown => shutdown r

/-- Run a sequence of actions, collecting the effect trace. -/
def runActs : Runner → List Action → Runner × List Effect
  | r, [] => (r, [])
  | r, a :: as =>
    let s := step r a
    let rest := runActs s.1 as
    (rest.1, s.2 ++ rest.2)

/-! ## Session persistence (`sessions.ts`, shipped as `src/unnamed/part_000`)

The module keeps a `Map<string,string>` from channel id to session id
and mirrors it into `sessions.json` on every mutation.  A JavaScript
`Map` preserves insertion order and updates a present key in place; it
is embedded as an association list.  The serialized file contents are
embedded as the association list that `Object.fromEntries` would
produce. -/

/-- `Map.get`: the value at the first matching key, if any. -/
def mapGet : List (String × String) → String → Option String
  | [], _ => none
  | (k, v) :: rest, key => if k = key then some v else mapGet rest key

/-- `Map.has`: whether the key is present. -/
def mapHas (m : List (String × String)) (key : String) : Bool :=
  m.any (fun kv => kv.1 = key)

/-- `Map.set`: update a present key in place, otherwise append. -/
def mapSet (m : List (String × String)) (key v : String) : List (String × String) :=
  if mapHas m key then
    m.map (fun kv => if kv.1 = key then (key, v) else kv)
  else m ++ [(key, v)]

/-- `Map.delete` (the mutation part): remove every entry with the key. -/
def mapDelete (m : List (String × String)) (key : String) : List (String × String) :=
  m.filter (fun kv => ¬ (kv.1 = key))

/-- The session module state: the in-memory map and the contents of
`sessions.json` (`none` when the file has never been written). -/
structure SessionStore where
  sessions : List (String × String)
  file : Option (List (String × String))
  deriving DecidableEq

/-- `initSessions`: load the map from the existing file, or start empty. -/
def initSessions (file : Option (List (String × String))) : SessionStore :=
  { sessions := file.getD [], file := file }

/-- `getSession(channelId)`. -/
def getSession (st : SessionStore) (channelId : String) : Option String :=
  mapGet st.sessions channelId

/-- `setSession(channelId, sessionId)`: mutate the map, then rewrite the
file with the whole map. -/
def setSession (st : SessionStore) (channelId sessionId : String) : SessionStore :=
  let m := mapSet st.sessions channelId sessionId
  { sessions := m, file := some m }

/-- `deleteSession(channelId)`: delete from the map; rewrite the file
only when an entry was actually removed; return whether one was. -/
def deleteSession (st : SessionStore) (channelId : String) : Bool × SessionStore :=
  let deleted := mapHas st.sessions channelId
  if deleted then
    let m := mapDelete st.sessions channelId
    (true, { sessions := m, file := some m })
  else (false, st)

/-! ## Settings (`src/src/settings.ts`)

`loadSettings` reads `settings.json` once and caches the result; every
return is a spread copy `\x7b ...cachedSettings \x7d` of the cached
object.  Object identity is embedded with a small heap: each returned
object is a freshly allocated cell, while the cache holds the value of
the module-private object (which no caller can alias, precisely because
of the spread copies). -/

/-- The `Settings` record. -/
structure Settings where
  autoRestart : Bool
  deriving DecidableEq

/-- `DEFAULT_SETTINGS`. -/
def DEFAULT_SETTINGS : Settings := ⟨true⟩

/-- The observable state of `settings.json` when `loadSettings` reads it:
missing, unparsable, or parsed with an optional `autoRestart` field. -/
inductive FileState where
  | absent
  | invalid
  | valid (autoRestart : Option Bool)
  deriving DecidableEq

/-- A heap of `Settings` objects handed out to callers. -/
structure SettingsHeap where
  cells : Nat → Settings
  nextRef : Nat

/-- Allocate a fresh object holding `v`. -/
def heapAlloc (h : SettingsHeap) (v : Settings) : Nat × SettingsHeap :=
  (h.nextRef,
   { cells := fun q => if q = h.nextRef then v else h.cells q,
     nextRef := h.nextRef + 1 })

/-- A caller mutates an object it was handed. -/
def heapSet (h : SettingsHeap) (ref : Nat) (v : Settings) : SettingsHeap :=
  { h with cells := fun q => if q = ref then v else h.cells q }

/-- The settings module state: the configured path (set by
`initSettings`) and the cached value, if a load has happened. -/
structure SettingsState where
  settingsPath : Option String
  cachedSettings : Option Settings

/-- `initSettings(workdir)`. -/
def initSettings (st : SettingsState) (workdir : String) : SettingsState :=
  { st with settingsPath := some (workdir ++ "/settings.json") }

/-- What the file read contributes on a cache miss: an absent file or a
JSON parse failure fall back to the defaults; a parsed object takes
`autoRestart` from the field or from the defaults when missing. -/
def settingsOfFile : FileState → Settings
  | .absent => DEFAULT_SETTINGS
  | .invalid => DEFAULT_SETTINGS
  | .valid a => ⟨a.getD DEFAULT_SETTINGS.autoRestart⟩

/-- `loadSettings()`: on a cache hit, return a fresh copy of the cached
value without reading the file; on a cache miss, throw if the path was
never initialized, otherwise read the file (clamping failures to the
defaults), cache the value and return a fresh copy.  The result carries
the returned object's reference, the new module state and heap, and
whether the file was read. -/
def loadSettings (st : SettingsState) (h : SettingsHeap) (file : FileState) :
    Except String (Nat × SettingsState × SettingsHeap × Bool) :=
  match st.cachedSettings with
  | some c =>
    let a := heapAlloc h c
    .ok (a.1, st, a.2, false)
  | none =>
    match st.settingsPath with
    | none => .error "Settings not initialized. Call initSettings(workdir) first."
    | some _ =>
      let v := settingsOfFile file
      let a := heapAlloc h v
      .ok (a.1, { st with cachedSettings := some v }, a.2, true)

/-! ## Helper predicates over effect traces -/

/-- An effect that settles a request's future. -/
def isSettle : Effect → Bool
  | .resolve _ _ _ => true
  | .reject _ _ _ => true
  | _ => false

/-- The settlement subtrace of an effect list. -/
def settles (effs : List Effect) : List Effect := effs.filter isSettle

theorem settles_append (a b : List Effect) :
    settles (a ++ b) = settles a ++ settles b :=
  List.filter_append ..

theorem dispatch_effects (r : Runner) :
    (dispatch r).2 = [] ∨
      ∃ g i p s, (dispatch r).2 = [Effect.write g i p s] := by
  unfold dispatch
  split
  · split
    · exact Or.inl rfl
    · exact Or.inr ⟨_, _, _, _, rfl⟩
  · exact Or.inl rfl

theorem settles_dispatch (r : Runner) : settles (dispatch r).2 = [] := by
  rcases dispatch_effects r with h | ⟨g, i, p, s, h⟩ <;>
    simp [settles, h, isSettle]

theorem not_mem_dispatch_of_not_write (r : Runner) (e : Effect)
    (h : ∀ g i p s, e ≠ Effect.write g i p s) : e ∉ (dispatch r).2 := by
  rcases dispatch_effects r with hd | ⟨g, i, p, s, hd⟩ <;> simp [hd]
  exact h g i p s

theorem isSettle_eq_false_of_mem_dispatch {r : Runner} {a : Effect}
    (ha : a ∈ (dispatch r).2) : isSettle a = false := by
  rcases dispatch_effects r with hd | ⟨g, i, p, s, hd⟩ <;> rw [hd] at ha
  · cases ha
  · rcases List.mem_singleton.mp ha with rfl
    rfl

/-- A concrete busy runner with one in-flight request carrying all
callbacks, used by witnesses. -/
def busyRunner : Runner :=
  { state := .busy, queue := [], inFlight := some ⟨0, "p", ⟨true, true, true⟩, ""⟩,
    sessionId := none, procAlive := true, gen := 1, nextId := 1, autoRestart := true }

/-- A concrete busy runner that also has one queued request, used by
witnesses. -/
def queuedRunner : Runner :=
  { state := .busy, queue := [⟨1, "q", noCallbacks, ""⟩],
    inFlight := some ⟨0, "p", ⟨true, true, true⟩, ""⟩,
    sessionId := none, procAlive := true, gen := 1, nextId := 2, autoRestart := true }

theorem splitLinesAux_join (cs : List Char) : ∀ acc : List Char,
    joinLines (splitLinesAux cs acc).1 ++ (splitLinesAux cs acc).2 =
      acc.reverse ++ cs := by
  induction cs with
  | nil => intro acc; simp [splitLinesAux, joinLines]
  | cons c cs ih =>
    intro acc
    by_cases hc : c = '\n'
    · subst hc
      have h0 := ih []
      have hstep : splitLinesAux ('\n' :: cs) acc =
          (acc.reverse :: (splitLinesAux cs []).1, (splitLinesAux cs []).2) := by
        simp [splitLinesAux]
      rw [hstep]
      simp only [joinLines, List.map_cons, List.flatten_cons] at h0 ⊢
      simp only [List.reverse_nil, List.nil_append] at h0
      rw [List.append_assoc, h0]
      simp
    · have hstep : splitLinesAux (c :: cs) acc = splitLinesAux cs (c :: acc) := by
        simp [splitLinesAux, hc]
      rw [hstep, ih (c :: acc)]
      simp

theorem splitLinesAux_rest_no_newline (cs : List Char) : ∀ acc : List Char,
    '\n' ∉ acc → '\n' ∉ (splitLinesAux cs acc).2 := by
  induction cs with
  | nil =>
    intro acc hacc
    simpa [splitLinesAux] using hacc
  | cons c cs ih =>
    intro acc hacc
    by_cases hc : c = '\n'
    · subst hc
      have hstep : (splitLinesAux ('\n' :: cs) acc).2 = (splitLinesAux cs []).2 := by
        simp [splitLinesAux]
      rw [hstep]
      exact ih [] (by simp)
    · have hstep : splitLinesAux (c :: cs) acc = splitLinesAux cs (c :: acc) := by
        simp [splitLinesAux, hc]
      rw [hstep]
      exact ih (c :: acc) (by
        intro hmem
        rcases List.mem_cons.mp hmem with h | h
        · exact hc h.symm
        · exact hacc h)

theorem classifyJson_unrecognized_of_shapes (j : Json)
    (h1 : isInitShape j = false) (h2 : isAssistantShape j = false)
    (h3 : isResultShape j = false) :
    classifyJson j = [.unrecognized] := by
  unfold classifyJson
  cases hty : asString (Json.getField j "type") with
  | none => rfl
  | some ty =>
    dsimp only
    by_cases hsys : ty = "system"
    · subst hsys
      rw [if_pos rfl]
      cases hsub : asString (Json.getField j "subtype") with
      | none => rfl
      | some sub =>
        cases hses : asString (Json.getField j "session_id") with
        | none => rfl
        | some s =>
          dsimp only
          simp [isInitShape, hty, hsub, hses] at h1
          rw [if_neg h1]
    · rw [if_neg hsys]
      by_cases hasst : ty = "assistant"
      · subst hasst
        rw [if_pos rfl]
        cases hmsg : Json.getField j "message" with
        | none => rfl
        | some m =>
          dsimp only
          cases hcont : Json.getField m "content" with
          | none => rfl
          | some cj =>
            cases cj with
            | arr entries =>
              exfalso
              simp [isAssistantShape, hty, hmsg, hcont] at h2
            | null => rfl
            | bool b => rfl
            | num n => rfl
            | str s => rfl
            | obj fs => rfl
      · rw [if_neg hasst]
        by_cases hres : ty = "result"
        · subst hres
          rw [if_pos rfl]
          cases hr : asString (Json.getField j "result") with
          | none => rfl
          | some rr =>
            cases hs : asString (Json.getField j "session_id") with
            | none => rfl
            | some s =>
              cases he : asBool (Json.getField j "is_error") with
              | none => rfl
              | some e =>
                exfalso
                simp [isResultShape, hty, hr, hs, he] at h3
        · rw [if_neg hres]

/-- C7: a line that fails JSON decoding classifies as `unrecognized`, as
does a line that decodes to anything other than the three recognized
event shapes; an `unrecognized` event settles no request and leaves the
runner untouched (the parser neither terminates nor throws — every
classification is total); and the line buffer loses nothing: the
extracted lines plus the retained trailing unterminated chunk
reassemble the whole input, and the retained chunk contains no line
terminator. -/
theorem C7_unrecognized_contained :
    classifyLine none = [.unrecognized] ∧
    (∀ j : Json, isInitShape j = false → isAssistantShape j = false →
      isResultShape j = false → classifyLine (some j) = [.unrecognized]) ∧
    (∀ r : Runner, handleEvent r .unrecognized = (r, [])) ∧
    (∀ buf chunk : List Char,
      joinLines (feedChunk buf chunk).1 ++ (feedChunk buf chunk).2 = buf ++ chunk ∧
      '\n' ∉ (feedChunk buf chunk).2) := by
  refine ⟨rfl, ?_, fun r => rfl, ?_⟩
  · intro j h1 h2 h3
    exact classifyJson_unrecognized_of_shapes j h1 h2 h3
  · intro buf chunk
    constructor
    · simpa using splitLinesAux_join (buf ++ chunk) []
    · exact splitLinesAux_rest_no_newline (buf ++ chunk) [] (by simp)

/-- Witness for `C7_unrecognized_contained`: a decoded number is
unrecognized, and a chunk with an embedded newline reassembles. -/
theorem C7_unrecognized_contained_witness :
    classifyLine (some (Json.num 3)) = [ParsedEvent.unrecognized] ∧
    joinLines (feedChunk ['a'] ['b', '\n', 'c']).1 ++ (feedChunk ['a'] ['b', '\n', 'c']).2 =
      ['a', 'b', '\n', 'c'] :=
  ⟨C7_unrecognized_contained.2.1 (Json.num 3) (by decide) (by decide) (by decide),
   (C7_unrecognized_contained.2.2.2 ['a'] ['b', '\n', 'c']).1⟩

theorem mapGet_cons (k0 v0 key : String) (rest : List (String × String)) :
    mapGet ((k0, v0) :: rest) key = if k0 = key then some v0 else mapGet rest key :=
  rfl

theorem mapHas_cons (k0 v0 key : String) (rest : List (String × String)) :
    mapHas ((k0, v0) :: rest) key = (decide (k0 = key) || mapHas rest key) := by
  simp [mapHas]

theorem mapGet_mapSet_update (m : List (String × String)) (k v : String) :
    mapGet (m.map (fun kv => if kv.1 = k then (k, v) else kv)) k =
      if mapHas m k then some v else none := by
  induction m with
  | nil => rfl
  | cons kv rest ih =>
    obtain ⟨k0, v0⟩ := kv
    by_cases hk : k0 = k
    · simp only [List.map_cons, if_pos hk, mapGet_cons, if_pos rfl,
        mapHas_cons, hk, decide_True, Bool.true_or, if_true]
    · simp only [List.map_cons, if_neg hk, mapGet_cons, if_neg hk, ih,
        mapHas_cons, decide_eq_true_eq]
      rw [show (decide (k0 = k) || mapHas rest k) = mapHas rest k from by
        simp [hk]]

theorem mapGet_append_self (m : List (String × String)) (k v : String)
    (h : mapHas m k = false) : mapGet (m ++ [(k, v)]) k = some v := by
  induction m with
  | nil => simp [mapGet]
  | cons kv rest ih =>
    obtain ⟨k0, v0⟩ := kv
    rw [mapHas_cons] at h
    rcases Bool.or_eq_false_iff.mp h with ⟨h0, hrest⟩
    have hk : ¬ k0 = k := by simpa using h0
    rw [List.cons_append, mapGet_cons, if_neg hk]
    exact ih hrest

theorem mapGet_mapSet (m : List (String × String)) (k v : String) :
    mapGet (mapSet m k v) k = some v := by
  unfold mapSet
  cases hh : mapHas m k
  · rw [if_neg (by simp [hh])]
    exact mapGet_append_self m k v hh
  · rw [if_pos (by simp [hh]), mapGet_mapSet_update, hh]
    rfl

theorem mapGet_mapDelete (m : List (String × String)) (k : String) :
    mapGet (mapDelete m k) k = none := by
  induction m with
  | nil => rfl
  | cons kv rest ih =>
    obtain ⟨k0, v0⟩ := kv
    by_cases hk : k0 = k
    · simpa [mapDelete, hk] using ih
    · simpa [mapDelete, mapGet_cons, hk] using ih

theorem mapHas_iff_mapGet (m : List (String × String)) (k : String) :
    mapHas m k = true ↔ (mapGet m k).isSome = true := by
  induction m with
  | nil => simp [mapHas, mapGet]
  | cons kv rest ih =>
    obtain ⟨k0, v0⟩ := kv
    by_cases hk : k0 = k
    · simp [mapHas_cons, mapGet_cons, hk]
    · simpa [mapHas_cons, mapGet_cons, hk] using ih

theorem deleteSession_spec (st : SessionStore) (c : String) :
    deleteSession st c =
      if mapHas st.sessions c then
        (true, { sessions := mapDelete st.sessions c,
                 file := some (mapDelete st.sessions c) })
      else (false, st) := by
  unfold deleteSession
  cases hh : mapHas st.sessions c <;> simp [hh]

/-- C8: `setSession` makes `getSession` return the stored id and rewrites
the backing file to the whole mapping (so the file contains the pair);
`deleteSession` returns true exactly when the channel was present, after
which `getSession` is absent; and a channel never stored (absent from
the loaded file) reads as absent. -/
theorem C8_session_roundtrip :
    (∀ (st : SessionStore) (c s : String),
      getSession (setSession st c s) c = some s ∧
      (setSession st c s).file = some (setSession st c s).sessions ∧
      mapGet (((setSession st c s).file).getD []) c = some s) ∧
    (∀ (st : SessionStore) (c : String),
      ((deleteSession st c).1 = true ↔ (getSession st c).isSome = true) ∧
      getSession (deleteSession st c).2 c = none) ∧
    (∀ (file : Option (List (String × String))) (c : String),
      mapGet (file.getD []) c = none → getSession (initSessions file) c = none) := by
  refine ⟨?_, ?_, ?_⟩
  · intro st c s
    refine ⟨mapGet_mapSet st.sessions c s, rfl, ?_⟩
    simpa [setSession] using mapGet_mapSet st.sessions c s
  · intro st c
    rw [deleteSession_spec]
    cases hh : mapHas st.sessions c
    · constructor
      · rw [if_neg (by simp)]
        constructor
        · intro hcontra; cases hcontra
        · intro hsome
          unfold getSession at hsome
          rw [← mapHas_iff_mapGet, hh] at hsome
          cases hsome
      · rw [if_neg (by simp)]
        unfold getSession
        have hnone := hh
        rw [← Bool.not_eq_true, mapHas_iff_mapGet] at hnone
        cases hget : mapGet st.sessions c
        · rfl
        · rw [hget] at hnone; simp at hnone
    · constructor
      · rw [if_pos rfl]
        simpa using (mapHas_iff_mapGet st.sessions c).mp hh
      · rw [if_pos rfl]
        exact mapGet_mapDelete st.sessions c
  · intro file c h
    simpa [getSession, initSessions] using h

/-- Witness for `C8_session_roundtrip` at concrete stores. -/
theorem C8_session_roundtrip_witness :
    getSession (setSession (initSessions none) "channel-1" "session-123") "channel-1" =
      some "session-123" ∧
    getSession (initSessions (some [("a", "b")])) "unknown" = none :=
  ⟨(C8_session_roundtrip.1 (initSessions none) "channel-1" "session-123").1,
   C8_session_roundtrip.2.2 (some [("a", "b")]) "unknown" (by decide)⟩

/-- C10: deleting an absent channel returns false and leaves the store —
both the in-memory map and the `sessions.json` contents — completely
unchanged: the file is rewritten only when an entry was removed. -/
theorem C10_delete_absent (st : SessionStore) (c : String)
    (h : getSession st c = none) :
    deleteSession st c = (false, st) := by
  rw [deleteSession_spec]
  have hh : mapHas st.sessions c = false := by
    cases hhas : mapHas st.sessions c
    · rfl
    · exfalso
      have hsome := (mapHas_iff_mapGet st.sessions c).mp hhas
      rw [getSession] at h
      rw [h] at hsome
      cases hsome
  rw [hh]
  simp

/-- Witness for `C10_delete_absent` at a concrete store. -/
theorem C10_delete_absent_witness :
    deleteSession (initSessions (some [("a", "b")])) "unknown" =
      (false, initSessions (some [("a", "b")])) :=
  C10_delete_absent (initSessions (some [("a", "b")])) "unknown" (by decide)

/-- C9: once `initSettings` has run (the path is set), `loadSettings`
never throws: it returns ok for every file state, yielding the default
`autoRestart = true` when the file is absent or unparsable; the cache is
filled on the first call, every later call returns the cached value
without reading the file, and each return is a freshly allocated copy —
mutating a returned object does not change what later loads return. -/
theorem C9_loadSettings_total_cached (st : SettingsState) (h : SettingsHeap)
    (file : FileState) (hpath : st.settingsPath.isSome = true) :
    (∃ out, loadSettings st h file = Except.ok out) ∧
    (∀ ref st1 h1 dr, loadSettings st h file = .ok (ref, st1, h1, dr) →
      (st.cachedSettings = none → (file = .absent ∨ file = .invalid) →
        h1.cells ref = DEFAULT_SETTINGS) ∧
      (∃ c, st1.cachedSettings = some c ∧ h1.cells ref = c ∧ st1.settingsPath = st.settingsPath ∧
        ∀ (v' : Settings) (file2 : FileState) ref2 st2 h2 dr2,
          loadSettings st1 (heapSet h1 ref v') file2 = .ok (ref2, st2, h2, dr2) →
            dr2 = false ∧ h2.cells ref2 = c ∧ ref2 ≠ ref)) := by
  cases hc : st.cachedSettings with
  | some c =>
    constructor
    · exact ⟨_, by rw [loadSettings, hc]⟩
    · intro ref st1 h1 dr hok
      rw [loadSettings, hc] at hok
      simp only [heapAlloc, Except.ok.injEq, Prod.mk.injEq] at hok
      obtain ⟨h1r, hst1, hh1, hdr⟩ := hok
      subst h1r hst1 hdr
      constructor
      · intro hnone
        exact (Option.some_ne_none c hnone).elim
      · refine ⟨c, hc, ?_, rfl, ?_⟩
        · rw [← hh1]; simp
        · intro v' file2 ref2 st2 h2 dr2 hok2
          rw [loadSettings, hc] at hok2
          simp only [heapAlloc, heapSet, Except.ok.injEq, Prod.mk.injEq] at hok2
          obtain ⟨h2r, hst2, hh2, hdr2⟩ := hok2
          subst h2r hdr2
          refine ⟨rfl, ?_, ?_⟩
          · rw [← hh2, ← hh1]
            simp
          · rw [← hh1]
            simp
  | none =>
    obtain ⟨p, hp⟩ := Option.isSome_iff_exists.mp hpath
    constructor
    · exact ⟨_, by rw [loadSettings, hc, hp]⟩
    · intro ref st1 h1 dr hok
      rw [loadSettings, hc, hp] at hok
      simp only [heapAlloc, Except.ok.injEq, Prod.mk.injEq] at hok
      obtain ⟨h1r, hst1, hh1, hdr⟩ := hok
      subst h1r hdr
      constructor
      · intro _ hfile
        rw [← hh1]
        simp only [heapAlloc]
        rcases hfile with rfl | rfl <;> simp [settingsOfFile]
      · refine ⟨settingsOfFile file, ?_, ?_, ?_, ?_⟩
        · rw [← hst1]
        · rw [← hh1]; simp
        · rw [← hst1]
          exact hp.symm
        · intro v' file2 ref2 st2 h2 dr2 hok2
          rw [loadSettings] at hok2
          rw [show st1.cachedSettings = some (settingsOfFile file) from by rw [← hst1]] at hok2
          simp only [heapAlloc, heapSet, Except.ok.injEq, Prod.mk.injEq] at hok2
          obtain ⟨h2r, hst2, hh2, hdr2⟩ := hok2
          subst h2r hdr2
          refine ⟨rfl, ?_, ?_⟩
          · rw [← hh2, ← hh1]
            simp
          · rw [← hh1]
            simp

/-- Witness for `C9_loadSettings_total_cached`: loading with no settings
file present after `initSettings` succeeds with the defaults. -/
theorem C9_loadSettings_total_cached_witness :
    (∃ out, loadSettings (initSettings ⟨none, none⟩ "/data") ⟨fun _ => ⟨true⟩, 0⟩ .absent =
      Except.ok out) :=
  (C9_loadSettings_total_cached (initSettings ⟨none, none⟩ "/data")
    ⟨fun _ => ⟨true⟩, 0⟩ .absent rfl).1

/-- C3: for an in-flight request, a Result event with `is_error:true`
rejects the request's future with a `RuntimeError` whose message equals
the event's `result` field, invoking `onError` when present; with
`is_error:false` it resolves the future with the event's `result` and
`session_id` fields, invoking `onComplete` when present — and that
settlement is the only one the event causes. -/
theorem C3_result_settlement (r : Runner) (req : PendingRequest)
    (res sid : String) (isErr : Bool) (h : r.inFlight = some req) :
    (isErr = true →
      settles (handleEvent r (.result res sid isErr)).2 =
        [Effect.reject req.id .runtimeError res] ∧
      (req.cbs.hasOnError = true →
        Effect.onErrorCall req.id ∈ (handleEvent r (.result res sid isErr)).2)) ∧
    (isErr = false →
      settles (handleEvent r (.result res sid isErr)).2 =
        [Effect.resolve req.id res sid] ∧
      (req.cbs.hasOnComplete = true →
        Effect.onCompleteCall req.id ∈ (handleEvent r (.result res sid isErr)).2)) := by
  simp only [handleEvent, h]
  constructor
  · rintro rfl
    cases hOE : req.cbs.hasOnError <;>
      simp [hOE, settles_append, settles_dispatch, settles, isSettle] <;>
      exact fun a ha => isSettle_eq_false_of_mem_dispatch ha
  · rintro rfl
    cases hOC : req.cbs.hasOnComplete <;>
      simp [hOC, settles_append, settles_dispatch, settles, isSettle] <;>
      exact fun a ha => isSettle_eq_false_of_mem_dispatch ha

/-- C5: `shutdown()` makes `isAlive()` false and synchronously (in its
own effect list, before it returns) rejects every queued-but-undispatched
request with `ShutdownError`, emptying the queue; the in-flight request,
if any, is rejected immediately when no process is alive, and otherwise
once the process close notification arrives. -/
theorem C5_shutdown (r : Runner) :
    (shutdown r).1.isAlive = false ∧
    (∀ q ∈ r.queue,
      Effect.reject q.id .shutdownError "Runner is shutting down" ∈ (shutdown r).2) ∧
    (shutdown r).1.queue = [] ∧
    (r.procAlive = false →
      (shutdown r).1.state = .dead ∧
      ∀ req, r.inFlight = some req →
        Effect.reject req.id .shutdownError "Runner is shutting down" ∈ (shutdown r).2) ∧
    (r.procAlive = true →
      (shutdown r).1.state = .shuttingDown ∧
      ∀ req, r.inFlight = some req →
        Effect.reject req.id .shutdownError "Runner is shutting down" ∈
          (handleClose (shutdown r).1).2) := by
  cases hp : r.procAlive
  · refine ⟨?_, ?_, ?_, ?_, ?_⟩
    · simp [shutdown, hp, Runner.isAlive]
    · intro q hq
      simp [shutdown, hp]
      exact Or.inl ⟨q, hq, rfl⟩
    · simp [shutdown, hp]
    · intro _
      refine ⟨by simp [shutdown, hp], ?_⟩
      intro req hreq
      simp [shutdown, hp, hreq]
    · intro hcontra
      exact absurd hcontra (by simp [hp])
  · refine ⟨?_, ?_, ?_, ?_, ?_⟩
    · simp [shutdown, hp, Runner.isAlive]
    · intro q hq
      simp [shutdown, hp]
      exact ⟨q, hq, rfl⟩
    · simp [shutdown, hp]
    · intro hcontra
      exact absurd hcontra (by simp [hp])
    · intro _
      refine ⟨by simp [shutdown, hp], ?_⟩
      intro req hreq
      simp [shutdown, handleClose, hp, hreq]

/-- Witness for `C5_shutdown` at a concrete busy runner with a queued
request. -/
theorem C5_shutdown_witness :
    ((shutdown queuedRunner).1.isAlive = false ∧
      Effect.reject 1 .shutdownError "Runner is shutting down" ∈ (shutdown queuedRunner).2) ∧
    Effect.reject 0 .shutdownError "Runner is shutting down" ∈
      (handleClose (shutdown queuedRunner).1).2 := by
  have h := C5_shutdown queuedRunner
  exact ⟨⟨h.1, h.2.1 ⟨1, "q", noCallbacks, ""⟩ (by decide)⟩,
    (h.2.2.2.2 rfl).2 ⟨0, "p", ⟨true, true, true⟩, ""⟩ rfl⟩

/-- C6: a process close notification received while the runner is busy
(and `shutdown()` was not called — shutdown leaves the busy state)
rejects the in-flight request with `ProcessCrashed` and transitions to
dead; no spawn happens at crash time, and when `autoRestart` is true the
next `submit()` spawns a fresh process generation lazily. -/
theorem C6_crash_close (r : Runner) (req : PendingRequest)
    (hb : r.state = .busy) (hf : r.inFlight = some req) :
    Effect.reject req.id .processCrashed "Process crashed" ∈ (handleClose r).2 ∧
    (handleClose r).1.state = .dead ∧
    (∀ g, Effect.spawn g ∉ (handleClose r).2) ∧
    (r.autoRestart = true → ∀ p cbs,
      Effect.spawn (r.gen + 1) ∈ (submit (handleClose r).1 p cbs).2) := by
  refine ⟨?_, ?_, ?_, ?_⟩
  · simp [handleClose, hb, hf]
  · simp [handleClose]
  · intro g
    simp [handleClose, hb, hf]
  · intro hAR p cbs
    simp [submit, handleClose, hb, hf, hAR, start]

/-- Witness for `C6_crash_close` at a concrete busy runner. -/
theorem C6_crash_close_witness :
    Effect.reject 0 .processCrashed "Process crashed" ∈ (handleClose busyRunner).2 ∧
    Effect.spawn 2 ∈ (submit (handleClose busyRunner).1 "again" noCallbacks).2 := by
  have h := C6_crash_close busyRunner ⟨0, "p", ⟨true, true, true⟩, ""⟩ rfl rfl
  exact ⟨h.1, h.2.2.2 rfl "again" noCallbacks⟩

/-- Witness for `C3_result_settlement` at a concrete runner. -/
theorem C3_result_settlement_witness :
    settles (handleEvent busyRunner (.result "boom" "S" true)).2 =
      [Effect.reject 0 .runtimeError "boom"] ∧
    Effect.onErrorCall 0 ∈ (handleEvent busyRunner (.result "boom" "S" true)).2 :=
  ((C3_result_settlement busyRunner ⟨0, "p", ⟨true, true, true⟩, ""⟩
      "boom" "S" true rfl).1 rfl).imp id (fun f => f rfl)

/-! ## Streamed text accumulation (claim C4) -/

/-- Concatenation of a list of text deltas. -/
def concatAll : List String → String
  | [] => ""
  | t :: ts => t ++ concatAll ts

/-- The `(delta, cumulative)` pairs produced when the deltas `ts` arrive
after `pre` has already accumulated. -/
def cumulPairs (pre : String) : List String → List (String × String)
  | [] => []
  | t :: ts => (t, pre ++ t) :: cumulPairs (pre ++ t) ts

/-- The actions delivering a list of TextDelta events. -/
def deltaActs (ts : List String) : List Action :=
  ts.map (fun t => Action.event (.textDelta t))

theorem deltaActs_nil : deltaActs [] = [] := rfl

theorem deltaActs_cons (t : String) (ts : List String) :
    deltaActs (t :: ts) = Action.event (.textDelta t) :: deltaActs ts := rfl

theorem runActs_append (as bs : List Action) : ∀ r : Runner,
    runActs r (as ++ bs) =
      ((runActs (runActs r as).1 bs).1,
       (runActs r as).2 ++ (runActs (runActs r as).1 bs).2) := by
  induction as with
  | nil => intro r; simp [runActs]
  | cons a as ih =>
    intro r
    simp only [List.cons_append, runActs, List.append_eq]
    rw [ih (step r a).1]
    simp

theorem dispatch_nil_queue (r : Runner) (h : r.queue = []) :
    dispatch r = (r, []) := by
  unfold dispatch
  split
  · rw [h]
  · rfl

theorem runActs_deltas (ts : List String) :
    ∀ (r : Runner) (req : PendingRequest), r.inFlight = some req →
      req.cbs.hasOnText = true →
      runActs r (deltaActs ts) =
        ({ r with inFlight := some { req with cumulative := req.cumulative ++ concatAll ts } },
         (cumulPairs req.cumulative ts).map
           (fun pr => Effect.onTextCall req.id pr.1 pr.2)) := by
  induction ts with
  | nil =>
    intro r req hf ht
    simp only [deltaActs_nil, runActs, cumulPairs, List.map_nil]
    refine Prod.ext ?_ rfl
    show r = { r with inFlight := some { req with cumulative := req.cumulative ++ concatAll [] } }
    have hre : ({ req with cumulative := req.cumulative ++ concatAll [] } : PendingRequest) = req := by
      have hemp : req.cumulative ++ concatAll [] = req.cumulative := by
        simp [concatAll]
      rw [hemp]
    rw [hre, ← hf]
  | cons t ts ih =>
    intro r req hf ht
    have hstep : step r (.event (.textDelta t)) =
        ({ r with inFlight := some { req with cumulative := req.cumulative ++ t } },
         [.onTextCall req.id t (req.cumulative ++ t)]) := by
      simp [step, handleEvent, hf, ht]
    simp only [deltaActs_cons, runActs]
    rw [hstep]
    dsimp only
    rw [show List.map (fun t => Action.event (ParsedEvent.textDelta t)) ts = deltaActs ts from rfl]
    rw [ih { r with inFlight := some { req with cumulative := req.cumulative ++ t } }
      { req with cumulative := req.cumulative ++ t } rfl ht]
    simp only [cumulPairs, List.map_cons]
    rw [String.append_assoc]
    exact Prod.ext rfl rfl

theorem result_step_effects (r : Runner) (req : PendingRequest) (res sid : String)
    (hf : r.inFlight = some req) (hc : req.cbs.hasOnComplete = true)
    (hq : r.queue = []) :
    (step r (.event (.result res sid false))).2 =
      [Effect.onCompleteCall req.id, Effect.resolve req.id res sid] := by
  simp only [step, handleEvent, hf]
  rw [dispatch_nil_queue _ (by exact hq)]
  simp [hc]

/-- C4: for a request with `onText` and `onComplete` callbacks, the
effect trace of a stream of TextDelta events followed by the terminal
Result is exactly one `onText(delta, cumulative)` call per delta — with
the cumulative argument equal to the concatenation of all deltas seen
so far — followed by exactly one `onComplete`, fired only after the
terminal Result, and the resolution. -/
theorem C4_streaming_callbacks (r : Runner) (req : PendingRequest)
    (ts : List String) (res sid : String)
    (hf : r.inFlight = some req) (ht : req.cbs.hasOnText = true)
    (hc : req.cbs.hasOnComplete = true) (hcum : req.cumulative = "")
    (hq : r.queue = []) (hst : r.state = .busy) :
    (runActs r (deltaActs ts ++ [.event (.result res sid false)])).2 =
      (cumulPairs "" ts).map (fun pr => Effect.onTextCall req.id pr.1 pr.2) ++
      [Effect.onCompleteCall req.id, Effect.resolve req.id res sid] := by
  rw [runActs_append, runActs_deltas ts r req hf ht, hcum]
  simp only [runActs]
  rw [result_step_effects { r with inFlight := some { req with cumulative := "" ++ concatAll ts } } { req with cumulative := "" ++ concatAll ts } res sid rfl (by exact hc) (by exact hq)]
  simp

/-- Witness for `C4_streaming_callbacks` at a concrete runner and delta
stream. -/
theorem C4_streaming_callbacks_witness :
    (runActs busyRunner
      (deltaActs ["He", "llo"] ++ [.event (.result "Hello" "S" false)])).2 =
      [Effect.onTextCall 0 "He" "He", Effect.onTextCall 0 "llo" "Hello",
       Effect.onCompleteCall 0, Effect.resolve 0 "Hello" "S"] := by
  have h := C4_streaming_callbacks busyRunner ⟨0, "p", ⟨true, true, true⟩, ""⟩
    ["He", "llo"] "Hello" "S" rfl rfl rfl rfl rfl rfl
  rw [h]
  rfl

/-! ## FIFO resolution order (claim C2) -/

/-- The actions submitting a list of prompts. -/
def submitActs (cbs : Callbacks) (ps : List String) : List Action :=
  ps.map (fun p => Action.submit p cbs)

/-- The actions delivering successful Result events with the given
payloads. -/
def resultActs (rs : List (String × String)) : List Action :=
  rs.map (fun rr => Action.event (.result rr.1 rr.2 false))

/-- The pending requests created by submitting the prompts `ps` starting
at id `n`. -/
def mkReqs (cbs : Callbacks) : Nat → List String → List PendingRequest
  | _, [] => []
  | n, p :: ps => ⟨n, p, cbs, ""⟩ :: mkReqs cbs (n + 1) ps

theorem submitActs_cons (cbs : Callbacks) (p : String) (ps : List String) :
    submitActs cbs (p :: ps) = Action.submit p cbs :: submitActs cbs ps := rfl

theorem resultActs_cons (rr : String × String) (rs : List (String × String)) :
    resultActs (rr :: rs) = Action.event (.result rr.1 rr.2 false) :: resultActs rs := rfl

theorem submit_busy (r : Runner) (p : String) (cbs : Callbacks)
    (hst : r.state = .busy) :
    submit r p cbs =
      ({ r with queue := r.queue ++ [⟨r.nextId, p, cbs, ""⟩], nextId := r.nextId + 1 },
       []) := by
  simp [submit, hst]

/-- The runner after a batch of submissions performed while busy. -/
def afterSubmits (r : Runner) (cbs : Callbacks) (ps : List String) : Runner :=
  { r with queue := r.queue ++ mkReqs cbs r.nextId ps, nextId := r.nextId + ps.length }

theorem runActs_submits (cbs : Callbacks) (ps : List String) :
    ∀ r : Runner, r.state = .busy →
      runActs r (submitActs cbs ps) = (afterSubmits r cbs ps, []) := by
  induction ps with
  | nil =>
    intro r hst
    show (r, []) = _
    simp [afterSubmits, mkReqs]
  | cons p ps ih =>
    intro r hst
    have hstep : step r (.submit p cbs) =
        ({ r with queue := r.queue ++ [⟨r.nextId, p, cbs, ""⟩], nextId := r.nextId + 1 },
         []) := submit_busy r p cbs hst
    simp only [submitActs_cons, runActs]
    rw [hstep]
    dsimp only
    rw [show List.map (fun p => Action.submit p cbs) ps = submitActs cbs ps from rfl]
    rw [ih { r with queue := r.queue ++ [⟨r.nextId, p, cbs, ""⟩], nextId := r.nextId + 1 }
      (by exact hst)]
    refine Prod.ext ?_ rfl
    show Runner.mk _ _ _ _ _ _ _ _ = Runner.mk _ _ _ _ _ _ _ _
    simp [afterSubmits, mkReqs, List.append_assoc, Nat.add_assoc,
      Nat.add_comm 1 ps.length]

theorem runActs_results_noflight (rs : List (String × String)) :
    ∀ r : Runner, r.inFlight = none →
      runActs r (resultActs rs) = (r, []) := by
  induction rs with
  | nil => intro r _; rfl
  | cons rr rs ih =>
    intro r h
    have hstep : step r (.event (.result rr.1 rr.2 false)) = (r, []) := by
      simp [step, handleEvent, h]
    simp only [resultActs_cons, runActs]
    rw [hstep]
    dsimp only
    rw [show List.map (fun rr : String × String =>
        Action.event (.result rr.1 rr.2 false)) rs = resultActs rs from rfl]
    rw [ih r h]
    rfl

/-- The runner after the Correlator has settled the in-flight request,
just before redispatch. -/
def afterResult (r : Runner) (sid : String) : Runner :=
  { r with inFlight := none, sessionId := some sid, state := .idle }

theorem step_result_busy (r : Runner) (req : PendingRequest) (res sid : String)
    (hst : r.state = .busy) (hf : r.inFlight = some req) :
    (step r (.event (.result res sid false))).1 = (dispatch (afterResult r sid)).1 ∧
    settles (step r (.event (.result res sid false))).2 =
      [Effect.resolve req.id res sid] := by
  constructor
  · simp [step, handleEvent, hf, afterResult, hst]
  · simp only [step, handleEvent, hf]
    cases hOC : req.cbs.hasOnComplete <;>
      simp [hOC, hst, settles_append, settles_dispatch, settles, isSettle] <;>
      exact fun a ha => isSettle_eq_false_of_mem_dispatch ha

theorem dispatch_cons (r : Runner) (q : PendingRequest) (qs : List PendingRequest)
    (hst : r.state = .idle) (hal : r.procAlive = true) (hq : r.queue = q :: qs) :
    dispatch r = ({ r with queue := qs, inFlight := some q, state := .busy },
      [Effect.write r.gen q.id q.prompt r.sessionId]) := by
  unfold dispatch
  rw [if_pos (And.intro hst (by exact hal))]
  rw [show r.queue = q :: qs from hq]

theorem runActs_results (rs : List (String × String)) :
    ∀ (r : Runner) (req : PendingRequest),
      r.state = .busy → r.procAlive = true → r.inFlight = some req →
      settles (runActs r (resultActs rs)).2 =
        (List.zip (req :: r.queue) rs).map
          (fun pr => Effect.resolve pr.1.id pr.2.1 pr.2.2) := by
  induction rs with
  | nil => intro r req _ _ _; simp [resultActs, runActs, settles]
  | cons rr rs ih =>
    intro r req hst hal hf
    obtain ⟨h1, h2⟩ := step_result_busy r req rr.1 rr.2 hst hf
    simp only [resultActs_cons, runActs]
    rw [show List.map (fun rr : String × String =>
        Action.event (.result rr.1 rr.2 false)) rs = resultActs rs from rfl]
    rw [settles_append, h2, h1]
    cases hq : r.queue with
    | nil =>
      rw [show dispatch (afterResult r rr.2) = (afterResult r rr.2, []) from
        dispatch_nil_queue _ (by exact hq)]
      rw [runActs_results_noflight rs (afterResult r rr.2) rfl]
      simp [hq, settles]
    | cons q qs =>
      rw [dispatch_cons (afterResult r rr.2) q qs rfl (by exact hal) (by exact hq)]
      dsimp only
      rw [ih { afterResult r rr.2 with queue := qs, inFlight := some q, state := .busy } q
        rfl (by exact hal) rfl]
      simp [hq]

theorem zip_mkReqs_map (cbs : Callbacks) :
    ∀ (ps : List String) (n : Nat) (rs : List (String × String)),
      rs.length ≤ ps.length →
      (List.zip (mkReqs cbs n ps) rs).map
          (fun pr => Effect.resolve pr.1.id pr.2.1 pr.2.2) =
        (rs.enumFrom n).map (fun pr => Effect.resolve pr.1 pr.2.1 pr.2.2) := by
  intro ps
  induction ps with
  | nil =>
    intro n rs h
    have hnil : rs = [] := List.eq_nil_of_length_eq_zero (Nat.le_zero.mp h)
    subst hnil
    rfl
  | cons p ps ih =>
    intro n rs h
    cases rs with
    | nil => rfl
    | cons rr rs' =>
      simp only [mkReqs, List.zip_cons_cons, List.enumFrom, List.map_cons]
      rw [ih (n + 1) rs' (by simpa using h)]

/-- The runner right after the very first `submit` against a fresh
runner: process spawned, request 0 in flight. -/
def afterFirstSubmit (ar : Bool) (p : String) (cbs : Callbacks) : Runner :=
  { state := .busy, queue := [], inFlight := some ⟨0, p, cbs, ""⟩, sessionId := none,
    procAlive := true, gen := 1, nextId := 1, autoRestart := ar }

theorem submit_init (ar : Bool) (p : String) (cbs : Callbacks) :
    submit (initRunner ar) p cbs =
      (afterFirstSubmit ar p cbs, [Effect.spawn 1, Effect.write 1 0 p none]) := rfl

/-- C2: submitting N prompts before any reply, against a process that
then emits successful Result events in order, settles the futures in
exactly the submission order: the settlement subtrace is
`resolve 0, resolve 1, ...` — request ids in submission order, the i-th
resolution carrying the i-th reply — so the i-th future is settled
strictly before the (i+1)-th. -/
theorem C2_fifo_order (ar : Bool) (cbs : Callbacks) (p0 : String) (ps : List String)
    (rs : List (String × String)) (hlen : rs.length ≤ ps.length + 1) :
    settles (runActs (initRunner ar) (submitActs cbs (p0 :: ps) ++ resultActs rs)).2 =
      rs.enum.map (fun pr => Effect.resolve pr.1 pr.2.1 pr.2.2) := by
  rw [submitActs_cons, List.cons_append]
  simp only [runActs]
  rw [show step (initRunner ar) (.submit p0 cbs) =
      (afterFirstSubmit ar p0 cbs, [Effect.spawn 1, Effect.write 1 0 p0 none]) from
    submit_init ar p0 cbs]
  dsimp only
  rw [runActs_append]
  rw [runActs_submits cbs ps (afterFirstSubmit ar p0 cbs) rfl]
  dsimp only
  have hres := runActs_results rs (afterSubmits (afterFirstSubmit ar p0 cbs) cbs ps)
    ⟨0, p0, cbs, ""⟩ (by rfl) (by rfl) (by rfl)
  rw [settles_append, settles_append, hres]
  have hqueue : (afterSubmits (afterFirstSubmit ar p0 cbs) cbs ps).queue =
      mkReqs cbs 1 ps := by
    simp [afterSubmits, afterFirstSubmit]
  rw [hqueue]
  rw [show (⟨0, p0, cbs, ""⟩ : PendingRequest) :: mkReqs cbs 1 ps =
      mkReqs cbs 0 (p0 :: ps) from rfl]
  rw [zip_mkReqs_map cbs (p0 :: ps) 0 rs (by simpa using hlen)]
  rfl

/-- Witness for `C2_fifo_order`: two prompts, two in-order replies. -/
theorem C2_fifo_order_witness :
    settles (runActs (initRunner true)
      (submitActs noCallbacks ["a", "b"] ++ resultActs [("r1", "S"), ("r2", "S")])).2 =
      [Effect.resolve 0 "r1" "S", Effect.resolve 1 "r2" "S"] := by
  have h := C2_fifo_order true noCallbacks "a" ["b"] [("r1", "S"), ("r2", "S")]
    (by decide)
  rw [show submitActs noCallbacks ["a", "b"] =
    submitActs noCallbacks ("a" :: ["b"]) from rfl]
  rw [h]
  rfl

/-! ## Lifecycle invariants (claim C1) -/

/-- Process generation `g` is finished from the point of view of runner
`r`: a newer generation exists, or it is the current one and the process
is no longer alive. -/
def deadGen (r : Runner) (g : Nat) : Prop :=
  g < r.gen ∨ (g = r.gen ∧ r.procAlive = false)

theorem start_alive (r : Runner) (h : r.procAlive = true) : start r = (r, []) := by
  simp [start, h]

theorem start_dead (r : Runner) (h : r.procAlive = false) :
    start r = ({ r with procAlive := true, gen := r.gen + 1, state := .idle },
      [Effect.spawn (r.gen + 1)]) := by
  simp [start, h]

theorem dispatch_gen_alive (r : Runner) :
    (dispatch r).1.gen = r.gen ∧ (dispatch r).1.procAlive = r.procAlive := by
  unfold dispatch
  split
  · split <;> exact ⟨rfl, rfl⟩
  · exact ⟨rfl, rfl⟩

theorem dispatch_write_mem {r : Runner} {g i : Nat} {p : String} {ss : Option String}
    (h : Effect.write g i p ss ∈ (dispatch r).2) :
    g = r.gen ∧ r.procAlive = true := by
  unfold dispatch at h
  split at h
  · next hcond =>
    split at h
    · cases h
    · simp only [List.mem_singleton, Effect.write.injEq] at h
      exact ⟨h.1, by simpa using hcond.2⟩
  · cases h

theorem submit_write_mem {r : Runner} {pp : String} {cbs : Callbacks}
    {g i : Nat} {p : String} {ss : Option String}
    (h : Effect.write g i p ss ∈ (submit r pp cbs).2) :
    (r.procAlive = true ∧ g = r.gen) ∨ g = r.gen + 1 := by
  simp only [submit] at h
  split at h
  · cases hal : r.procAlive
    · rw [start_dead _ (by exact hal)] at h
      rcases List.mem_append.mp h with h1 | h1
      · simp at h1
      · exact Or.inr (dispatch_write_mem h1).1
    · rw [start_alive _ (by exact hal)] at h
      rcases List.mem_append.mp h with h1 | h1
      · cases h1
      · exact Or.inl ⟨rfl, (dispatch_write_mem h1).1⟩
  · split at h
    · cases hal : r.procAlive
      · rw [start_dead _ (by exact hal)] at h
        rcases List.mem_append.mp h with h1 | h1
        · simp at h1
        · exact Or.inr (dispatch_write_mem h1).1
      · rw [start_alive _ (by exact hal)] at h
        rcases List.mem_append.mp h with h1 | h1
        · cases h1
        · exact Or.inl ⟨rfl, (dispatch_write_mem h1).1⟩
    · cases h
  · cases h

theorem handleEvent_write_mem {r : Runner} {ev : ParsedEvent} {g i : Nat} {p : String}
    {ss : Option String} (h : Effect.write g i p ss ∈ (handleEvent r ev).2) :
    g = r.gen ∧ r.procAlive = true := by
  cases ev with
  | init s => cases h
  | textDelta t =>
    simp only [handleEvent] at h
    split at h
    · simp at h
    · split at h <;> simp at h
  | result res sid isErr =>
    simp only [handleEvent] at h
    split at h
    · simp at h
    · rcases List.mem_append.mp h with h1 | h1
      · exfalso
        split at h1 <;>
          rcases List.mem_append.mp h1 with h2 | h2 <;>
          first
            | (split at h2 <;> simp at h2)
            | simp at h2
      · have hdw := dispatch_write_mem h1
        exact ⟨hdw.1, hdw.2⟩
  | unrecognized => cases h

theorem shutdown_no_write (r : Runner) {g i : Nat} {p : String} {ss : Option String} :
    Effect.write g i p ss ∉ (shutdown r).2 := by
  intro h
  unfold shutdown at h
  split at h
  · rcases List.mem_append.mp h with h1 | h1 <;> simp at h1
  · rcases List.mem_append.mp h with h1 | h1
    · simp at h1
    · split at h1 <;> simp at h1

theorem handleClose_no_write (r : Runner) {g i : Nat} {p : String} {ss : Option String} :
    Effect.write g i p ss ∉ (handleClose r).2 := by
  intro h
  unfold handleClose at h
  dsimp only at h
  rcases List.mem_append.mp h with h1 | h1
  · split at h1 <;> first | (split at h1 <;> simp at h1) | cases h1
  · simp at h1

theorem write_mem_step {r : Runner} {a : Action} {g i : Nat} {p : String}
    {ss : Option String} (h : Effect.write g i p ss ∈ (step r a).2) :
    (r.procAlive = true ∧ g = r.gen) ∨ g = r.gen + 1 := by
  cases a with
  | submit pp cbs => exact submit_write_mem h
  | event e =>
    obtain ⟨hg, hal⟩ := handleEvent_write_mem h
    exact Or.inl ⟨hal, hg⟩
  | close => exact absurd h (handleClose_no_write r)
  | shutdown => exact absurd h (shutdown_no_write r)

theorem start_no_closed (r : Runner) {g : Nat} : Effect.closed g ∉ (start r).2 := by
  intro h
  cases hal : r.procAlive
  · rw [start_dead _ (by exact hal)] at h
    simp at h
  · rw [start_alive _ (by exact hal)] at h
    cases h

theorem submit_no_closed (r : Runner) (pp : String) (cbs : Callbacks) {g : Nat} :
    Effect.closed g ∉ (submit r pp cbs).2 := by
  intro h
  simp only [submit] at h
  split at h
  · rcases List.mem_append.mp h with h1 | h1
    · exact start_no_closed _ h1
    · exact not_mem_dispatch_of_not_write _ _ (fun _ _ _ _ hne => by cases hne) h1
  · split at h
    · rcases List.mem_append.mp h with h1 | h1
      · exact start_no_closed _ h1
      · exact not_mem_dispatch_of_not_write _ _ (fun _ _ _ _ hne => by cases hne) h1
    · cases h
  · cases h

theorem handleEvent_no_closed (r : Runner) (ev : ParsedEvent) {g : Nat} :
    Effect.closed g ∉ (handleEvent r ev).2 := by
  intro h
  cases ev with
  | init s => cases h
  | textDelta t =>
    simp only [handleEvent] at h
    split at h
    · simp at h
    · split at h <;> simp at h
  | result res sid isErr =>
    simp only [handleEvent] at h
    split at h
    · simp at h
    · rcases List.mem_append.mp h with h1 | h1
      · split at h1 <;>
          rcases List.mem_append.mp h1 with h2 | h2 <;>
          first
            | (split at h2 <;> simp at h2)
            | simp at h2
      · exact not_mem_dispatch_of_not_write _ _ (fun _ _ _ _ hne => by cases hne) h1
  | unrecognized => cases h

theorem shutdown_no_closed (r : Runner) {g : Nat} :
    Effect.closed g ∉ (shutdown r).2 := by
  intro h
  unfold shutdown at h
  split at h
  · rcases List.mem_append.mp h with h1 | h1 <;> simp at h1
  · rcases List.mem_append.mp h with h1 | h1
    · simp at h1
    · split at h1 <;> simp at h1

theorem handleClose_closed_mem {r : Runner} {g : Nat}
    (h : Effect.closed g ∈ (handleClose r).2) : g = r.gen := by
  unfold handleClose at h
  dsimp only at h
  rcases List.mem_append.mp h with h1 | h1
  · exfalso
    split at h1 <;> first | (split at h1 <;> simp at h1) | cases h1
  · simpa using h1

theorem closed_mem_step {r : Runner} {a : Action} {g : Nat}
    (h : Effect.closed g ∈ (step r a).2) :
    g = r.gen ∧ (step r a).1.procAlive = false ∧ (step r a).1.gen = r.gen := by
  cases a with
  | submit pp cbs => exact absurd h (submit_no_closed r pp cbs)
  | event e => exact absurd h (handleEvent_no_closed r e)
  | close => exact ⟨handleClose_closed_mem h, rfl, rfl⟩
  | shutdown => exact absurd h (shutdown_no_closed r)

theorem step_gen_alive (r : Runner) (a : Action) :
    ((step r a).1.gen = r.gen ∧
      ((step r a).1.procAlive = true → r.procAlive = true)) ∨
    (step r a).1.gen = r.gen + 1 := by
  obtain ⟨st, q, inf, sid, al, gen, nid, arr⟩ := r
  cases a with
  | submit pp cbs =>
    cases st <;> cases al <;> cases arr <;> cases q <;>
      first
        | exact Or.inl ⟨rfl, fun h => h⟩
        | exact Or.inr rfl
  | event ev =>
    cases ev <;> cases inf <;> cases st <;> cases al <;> cases q <;>
      exact Or.inl ⟨rfl, fun h => h⟩
  | close =>
    exact Or.inl ⟨rfl, fun h => nomatch h⟩
  | shutdown =>
    cases al
    · exact Or.inl ⟨rfl, fun h => h⟩
    · exact Or.inl ⟨rfl, fun h => nomatch h⟩

theorem deadGen_step {r : Runner} {a : Action} {g : Nat} (h : deadGen r g) :
    deadGen (step r a).1 g := by
  rcases step_gen_alive r a with ⟨hg, hi⟩ | hg
  · rcases h with hlt | ⟨heq, hal⟩
    · exact Or.inl (by omega)
    · right
      refine ⟨by omega, ?_⟩
      cases halp : (step r a).1.procAlive
      · rfl
      · rw [hi halp] at hal
        cases hal
  · left
    rcases h with hlt | ⟨heq, _⟩ <;> omega

theorem deadGen_runActs (acts : List Action) :
    ∀ (r : Runner) (g : Nat), deadGen r g → deadGen (runActs r acts).1 g := by
  induction acts with
  | nil => intro r g h; exact h
  | cons a as ih =>
    intro r g h
    simp only [runActs]
    exact ih (step r a).1 g (deadGen_step h)

theorem no_dead_write (acts : List Action) :
    ∀ (r : Runner) (g : Nat), deadGen r g →
      ∀ (i : Nat) (p : String) (ss : Option String),
        Effect.write g i p ss ∉ (runActs r acts).2 := by
  induction acts with
  | nil => intro r g _ i p ss h; cases h
  | cons a as ih =>
    intro r g hd i p ss h
    simp only [runActs] at h
    rcases List.mem_append.mp h with h1 | h1
    · rcases write_mem_step h1 with ⟨hal, hg⟩ | hg
      · rcases hd with hlt | ⟨heq, hal2⟩
        · omega
        · rw [hal] at hal2; cases hal2
      · rcases hd with hlt | ⟨heq, _⟩ <;> omega
    · exact ih (step r a).1 g (deadGen_step hd) i p ss h1

theorem closed_deadGen (acts : List Action) :
    ∀ (r : Runner) (g : Nat), Effect.closed g ∈ (runActs r acts).2 →
      deadGen (runActs r acts).1 g := by
  induction acts with
  | nil => intro r g h; cases h
  | cons a as ih =>
    intro r g h
    simp only [runActs] at h ⊢
    rcases List.mem_append.mp h with h1 | h1
    · obtain ⟨hg, hal, hgen⟩ := closed_mem_step h1
      exact deadGen_runActs as (step r a).1 g (Or.inr ⟨by omega, hal⟩)
    · exact ih (step r a).1 g h1

/-- The lifecycle/correlation invariant: a busy runner has a request in
flight, and a request is in flight only while busy or shutting down. -/
def StateInv (r : Runner) : Prop :=
  (r.state = .busy → r.inFlight.isSome = true) ∧
  (r.inFlight.isSome = true → r.state = .busy ∨ r.state = .shuttingDown)

theorem stateInv_step (r : Runner) (a : Action) (h : StateInv r) :
    StateInv (step r a).1 := by
  obtain ⟨st, q, inf, sid, al, gen, nid, arr⟩ := r
  obtain ⟨h1, h2⟩ := h
  cases a with
  | submit pp cbs =>
    cases st <;> cases inf <;> cases al <;> cases arr <;> cases q <;>
      simp_all [StateInv, step, submit, start, dispatch]
  | event ev =>
    cases ev <;> cases inf <;> cases st <;> cases al <;> cases q <;>
      simp_all [StateInv, step, handleEvent, dispatch]
  | close =>
    cases st <;> simp_all [StateInv, step, handleClose]
  | shutdown =>
    cases st <;> cases al <;> cases inf <;>
      simp_all [StateInv, step, shutdown]

theorem stateInv_runActs (acts : List Action) :
    ∀ r : Runner, StateInv r → StateInv (runActs r acts).1 := by
  induction acts with
  | nil => intro r h; exact h
  | cons a as ih =>
    intro r h
    simp only [runActs]
    exact ih (step r a).1 (stateInv_step r a h)

/-- C1 (amended): at every reachable runner state, at most one request
is in flight; a busy state always has a request in flight; a request in
flight means the state is busy or — after `shutdown()` was called while
it was in flight, until the close notification arrives — shutting down;
and once the close notification for a process generation has been
observed, no write is ever issued to that generation's input stream
again (in particular none after the runner is Dead). -/
theorem C1_lifecycle_invariants :
    (∀ (ar : Bool) (acts : List Action),
      (runActs (initRunner ar) acts).1.inFlight.toList.length ≤ 1 ∧
      ((runActs (initRunner ar) acts).1.state = .busy →
        (runActs (initRunner ar) acts).1.inFlight.isSome = true) ∧
      ((runActs (initRunner ar) acts).1.inFlight.isSome = true →
        (runActs (initRunner ar) acts).1.state = .busy ∨
        (runActs (initRunner ar) acts).1.state = .shuttingDown)) ∧
    (∀ (ar : Bool) (acts1 acts2 : List Action) (g : Nat),
      Effect.closed g ∈ (runActs (initRunner ar) acts1).2 →
      ∀ (i : Nat) (p : String) (ss : Option String),
        Effect.write g i p ss ∉
          (runActs (runActs (initRunner ar) acts1).1 acts2).2) := by
  constructor
  · intro ar acts
    have hinv := stateInv_runActs acts (initRunner ar)
      ⟨fun hc => (nomatch hc), fun hc => (nomatch hc)⟩
    refine ⟨?_, hinv.1, hinv.2⟩
    cases (runActs (initRunner ar) acts).1.inFlight <;> simp
  · intro ar acts1 acts2 g hclosed i p ss
    exact no_dead_write acts2 _ g (closed_deadGen acts1 _ g hclosed) i p ss

/-- Witness for `C1_lifecycle_invariants`: after a crash of process
generation 1, the respawn triggered by the next submit never writes to
generation 1 again. -/
theorem C1_lifecycle_invariants_witness :
    ((runActs (initRunner true) [.submit "a" noCallbacks]).1.state = .busy →
      (runActs (initRunner true) [.submit "a" noCallbacks]).1.inFlight.isSome = true) ∧
    Effect.write 1 1 "b" none ∉
      (runActs (runActs (initRunner true) [.submit "a" noCallbacks, .close]).1
        [.submit "b" noCallbacks]).2 :=
  ⟨(C1_lifecycle_invariants.1 true [.submit "a" noCallbacks]).2.1,
   C1_lifecycle_invariants.2 true [.submit "a" noCallbacks, .close]
     [.submit "b" noCallbacks] 1 (by decide) 1 "b" none⟩

/-- C1 as stated is refuted by the model: calling `shutdown()` while a
request is in flight leaves that request in flight (it is only rejected
at the close notification) while the state is ShuttingDown, not Busy —
so "RunnerState is Busy iff a request is in flight" fails. -/
theorem C1_busy_iff_counterexample :
    (runActs (initRunner true)
      [.submit "a" noCallbacks, .shutdown]).1.inFlight.isSome = true ∧
    ¬ (runActs (initRunner true)
      [.submit "a" noCallbacks, .shutdown]).1.state = .busy := by
  decide

end Xangi
